import Mathlib

/-!
Verification of the dream-crawler crawl engine
(`go-backend/cmd/crawler`, package `main`).

This file gives a shallow embedding, in Lean, of the crawler functions the
specification talks about, and proves (or refutes) the spec's claims about
them.  Conventions used throughout:

* Go strings are modelled as Lean `String`s operated on through their
  character lists; all concrete inputs used here are ASCII, where Go's
  byte-based `len` agrees with the character count.
* Go `float64` scores are modelled as `ℚ` (exact decimal arithmetic); no
  claim settled here depends on binary floating-point rounding.
* Go map iteration order is unspecified.  Wherever the source ranges over a
  map (`extractKeywords`), the embedding takes the iteration order as an
  explicit argument, constrained to be a permutation of the map's key set.
* External library calls (goquery HTML parsing, `net/url` resolution, the
  Kafka client) are modelled at their boundary: HTML parsing results and URL
  resolution enter as explicit inputs, and "publishing" a Kafka message is
  recorded as a value of type `KafkaMessage`.
-/

namespace DreamCrawler

/-! ## Go string primitives used by the crawler -/

/-- Go `unicode.IsSpace` restricted to the code points relevant to
`strings.Fields` / `strings.TrimSpace` (Latin-1 range). -/
def goIsSpace (c : Char) : Bool :=
  c == ' ' || c == '\t' || c == '\n' || c == '\r' ||
    c == Char.ofNat 11 || c == Char.ofNat 12 || c == Char.ofNat 0x85 || c == Char.ofNat 0xA0

/-- Worker for `goFields`: splits a character list around runs of white space,
accumulating the current field in reverse. -/
def fieldsAux : List Char → List Char → List String
  | [], [] => []
  | [], acc => [String.mk acc.reverse]
  | c :: cs, acc =>
    if goIsSpace c then
      (if acc.isEmpty then fieldsAux cs [] else String.mk acc.reverse :: fieldsAux cs [])
    else fieldsAux cs (c :: acc)

/-- Go `strings.Fields`: white-space separated fields of a string. -/
def goFields (s : String) : List String := fieldsAux s.data []

/-- Go `strings.ToLower` (ASCII range, which covers every input considered
here). -/
def goToLower (s : String) : String := String.mk (s.data.map Char.toLower)

/-- The cut set `".,!?;:"` used by `extractKeywords`. -/
def punctCut : List Char := ['.', ',', '!', '?', ';', ':']

/-- Go `strings.Trim(word, ".,!?;:")`: removes characters of the cut set from
BOTH ends of the string (the source uses `Trim`, not `TrimRight`). -/
def trimPunct (s : String) : String :=
  String.mk (((s.data.dropWhile punctCut.contains).reverse.dropWhile punctCut.contains).reverse)

/-- Go `strings.TrimSpace`. -/
def goTrimSpace (s : String) : String :=
  String.mk (((s.data.dropWhile goIsSpace).reverse.dropWhile goIsSpace).reverse)

/-- `true` iff the pattern list is an initial segment of the text list
(helper for the Go `strings.Contains` model). -/
def headMatches : List Char → List Char → Bool
  | [], _ => true
  | _ :: _, [] => false
  | a :: as, b :: bs => a == b && headMatches as bs

/-- Substring search on character lists. -/
def containsSub (pat text : List Char) : Bool :=
  match text with
  | [] => pat.isEmpty
  | _ :: rest => headMatches pat text || containsSub pat rest

/-- Go `strings.Contains s sub`. -/
def goContains (s sub : String) : Bool := containsSub sub.data s.data

/-- Go `strings.HasPrefix(href, "#")`: the only use of `HasPrefix` in the
crawler is with the one-character pattern `"#"`. -/
def startsWithHash (s : String) : Bool :=
  match s.data with
  | c :: _ => c == '#'
  | [] => false

/-! ## `extractKeywords` (crawler lines 1079-1113)

The Go function lowercases the text, splits it into fields, trims the
punctuation cut set from each word, and counts the words that pass
`len(word) > 3 && !stopWords[word]` in the map `wordCount`.  It then ranges
over that map — in Go's unspecified iteration order — appending each word
with `count >= 2 || len(word) > 6`, and stops once ten keywords were
collected.  The iteration order is an explicit argument `ord` here,
constrained by `ValidKeyOrder` to be a permutation of the map's key set. -/

/-- The fixed stop-word set of `extractKeywords`. -/
def stopWords : List String :=
  ["the", "a", "an", "and", "or", "but",
   "in", "on", "at", "to", "for", "of",
   "with", "by", "is", "are", "was", "were",
   "be", "been", "have", "has", "had", "do",
   "does", "did", "will", "would", "could", "should",
   "this", "that", "these", "those", "i", "you",
   "he", "she", "it", "we", "they"]

/-- The multiset of words actually counted in `wordCount`: lower-cased
fields, trimmed, of length `> 3` and not stop words (in source order). -/
def filteredWords (text : String) : List String :=
  ((goFields (goToLower text)).map trimPunct).filter
    (fun w => decide (3 < w.length) && !(stopWords.contains w))

/-- The keep condition of the final loop: `count >= 2 || len(word) > 6`. -/
def keepKeyword (cnt : String → Nat) (w : String) : Bool :=
  decide (2 ≤ cnt w) || decide (6 < w.length)

/-- The accumulation loop over the map keys: append a word when
`keepKeyword`, and break once `len(keywords) >= 10`. -/
def keywordLoop (cnt : String → Nat) : List String → List String → List String
  | [], acc => acc
  | w :: rest, acc =>
    let acc' := if keepKeyword cnt w then acc ++ [w] else acc
    if 10 ≤ acc'.length then acc' else keywordLoop cnt rest acc'

/-- `extractKeywords`, with the Go map iteration order as the explicit
argument `ord`. -/
def extractKeywords (ord : List String) (text : String) : List String :=
  keywordLoop (fun w => (filteredWords text).count w) ord []

/-- `ord` is a possible Go map iteration order for `wordCount`: a permutation
of the distinct counted words. -/
def ValidKeyOrder (ord : List String) (text : String) : Prop :=
  ord.Perm (filteredWords text).dedup

instance (ord : List String) (text : String) : Decidable (ValidKeyOrder ord text) :=
  inferInstanceAs (Decidable (ord.Perm (filteredWords text).dedup))

/-- The words that qualify for the keyword list, independent of order. -/
def qualKeywords (text : String) : List String :=
  (filteredWords text).dedup.filter (keepKeyword (fun w => (filteredWords text).count w))

/-! ## Data model (crawler lines 138-211)

The structures below translate the Go structs field by field.  Time-valued
fields (`FetchedAt`, `PublishedAt`) and fields never read by any claim's code
path (`Context` on links, `Caption`/`Size` on media) are carried as plain
strings or omitted; numeric scores are `ℚ`. -/

/-- `DreamingHints` (lines 199-211). -/
structure DreamingHints where
  emotions : List String
  themes : List String
  motifs : List String
  tone : String
  complexity : ℚ
  surrealism : ℚ
  visualCues : List String
  audioCues : List String
  colorPalette : List String
  abstractness : ℚ
deriving DecidableEq

/-- `DocumentMetadata` (lines 155-166); `PublishedAt` omitted (time value,
not used by any claim), headers as an association list with distinct keys
(the Go `map[string]string`). -/
structure DocumentMetadata where
  domain : String
  language : String
  wordCount : Nat
  author : String
  tags : List String
  category : String
  headers : List (String × String)
  contentType : String
  size : Int
deriving DecidableEq

/-- `ContentChunk` (lines 168-178). -/
structure ContentChunk where
  id : String
  type : String
  text : String
  position : Nat
  confidence : ℚ
  keywords : List String
  sentiment : String
  entities : List String
deriving DecidableEq

/-- `ExtractedLink` (lines 180-187). -/
structure ExtractedLink where
  url : String
  text : String
  type : String
  priority : Nat
deriving DecidableEq

/-- `MediaAsset` (lines 189-197). -/
structure MediaAsset where
  url : String
  type : String
  alt : String
  format : String
deriving DecidableEq

/-- `Document` (lines 138-152). -/
structure Document where
  url : String
  title : String
  text : String
  cleanText : String
  status : Nat
  contentHash : String
  metadata : DocumentMetadata
  chunks : List ContentChunk
  links : List ExtractedLink
  media : List MediaAsset
  dreamHints : DreamingHints
deriving DecidableEq

/-! ## Dream-hint annotators (crawler lines 860-1053) -/

/-- `detectEmotions` (lines 861-894): each label appended at most once, in
the order positive, dark, mystical; `["neutral"]` when none matched. -/
def detectEmotions (text : String) : List String :=
  let positiveWords := ["amazing", "beautiful", "wonderful", "great", "love", "happy", "joy", "success"]
  let negativeWords := ["terrible", "awful", "hate", "sad", "fear", "anger", "pain", "failure"]
  let mysticalWords := ["mystery", "magic", "dream", "vision", "spirit", "soul", "ethereal", "cosmic"]
  let es :=
    (if positiveWords.any (fun w => goContains text w) then ["positive"] else []) ++
    (if negativeWords.any (fun w => goContains text w) then ["dark"] else []) ++
    (if mysticalWords.any (fun w => goContains text w) then ["mystical"] else [])
  if es.isEmpty then ["neutral"] else es

/-- `detectThemes` (lines 896-925). -/
def detectThemes (text : String) : List String :=
  let techWords := ["technology", "ai", "computer", "digital", "software", "algorithm"]
  let artWords := ["art", "creative", "design", "visual", "aesthetic", "beauty"]
  let scienceWords := ["science", "research", "discovery", "experiment", "analysis"]
  (if techWords.any (fun w => goContains text w) then ["technology"] else []) ++
  (if artWords.any (fun w => goContains text w) then ["creative"] else []) ++
  (if scienceWords.any (fun w => goContains text w) then ["scientific"] else [])

/-- `extractVisualMotifs` (lines 927-938): every matched word of the fixed
list, in list order. -/
def extractVisualMotifs (text : String) : List String :=
  let visualWords := ["light", "shadow", "color", "bright", "dark", "crystal", "liquid", "flowing", "geometric", "organic"]
  visualWords.filter (fun w => goContains text w)

/-- `extractVisualCues` (lines 940-942): ignores its argument. -/
def extractVisualCues (_text : String) : List String :=
  ["ethereal lighting", "flowing forms", "crystalline structures"]

/-- `extractAudioCues` (lines 944-946): ignores its argument. -/
def extractAudioCues (_text : String) : List String :=
  ["ambient whispers", "digital harmonics", "pulsing rhythms"]

/-- `extractColors` (lines 948-959). -/
def extractColors (text : String) : List String :=
  let colorWords := ["red", "blue", "green", "yellow", "purple", "orange", "pink", "white", "black", "gold", "silver"]
  colorWords.filter (fun w => goContains text w)

/-- `detectTone` (lines 1017-1053): counts of list words contained in the
text decide between dramatic, formal, casual and neutral. -/
def detectTone (text : String) : String :=
  let formalWords := ["therefore", "furthermore", "consequently", "analysis", "research"]
  let casualWords := ["really", "pretty", "quite", "basically", "actually"]
  let dramaticWords := ["incredible", "amazing", "shocking", "revolutionary", "breakthrough"]
  let formalCount := formalWords.countP (fun w => goContains text w)
  let casualCount := casualWords.countP (fun w => goContains text w)
  let dramaticCount := dramaticWords.countP (fun w => goContains text w)
  if formalCount < dramaticCount ∧ casualCount < dramaticCount then "dramatic"
  else if casualCount < formalCount then "formal"
  else if 0 < casualCount then "casual"
  else "neutral"

/-- `calculateComplexity` (lines 961-968). -/
def calculateComplexity (doc : Document) : ℚ :=
  min 1 ((doc.metadata.wordCount : ℚ) / 1000 + (doc.chunks.length : ℚ) / 10 + (doc.media.length : ℚ) / 5)

/-- `calculateSurrealismPotential` (lines 970-999): the per-element loops
over emotions/themes add `0.4` and `0.3` once per matching entry, hence the
`countP` factors. -/
def calculateSurrealismPotential (_doc : Document) (hints : DreamingHints) : ℚ :=
  let s1 : ℚ := if 1 < hints.emotions.length then 3/10 else 0
  let s2 := s1 + (hints.emotions.countP (· == "mystical") : ℚ) * (4/10)
  let s3 := s2 + (hints.themes.countP (· == "creative") : ℚ) * (3/10)
  let s4 := s3 + (hints.motifs.length : ℚ) * (5/100)
  min 1 (s4 + hints.complexity * (2/10))

/-- `calculateAbstractness` (lines 1001-1015). -/
def calculateAbstractness (text : String) (hints : DreamingHints) : ℚ :=
  let abstractWords := ["concept", "idea", "essence", "meaning", "philosophy", "abstract", "theory", "metaphor"]
  min 1 ((abstractWords.countP (fun w => goContains text w) : ℚ) * (1/10) +
          (hints.emotions.length : ℚ) * (5/100))

/-- `generateDreamHints` (lines 754-773): assembles the hints from the
lower-cased clean text plus title, then fills in the three scores in source
order (surrealism sees the computed complexity, abstractness only reads the
emotion list). -/
def generateDreamHints (doc : Document) : DreamingHints :=
  let text := goToLower (doc.cleanText ++ " " ++ doc.title)
  let hints : DreamingHints :=
    { emotions := detectEmotions text
      themes := detectThemes text
      motifs := extractVisualMotifs text
      tone := detectTone text
      complexity := 0
      surrealism := 0
      visualCues := extractVisualCues text
      audioCues := extractAudioCues text
      colorPalette := extractColors text
      abstractness := 0 }
  let hints := { hints with complexity := calculateComplexity doc }
  let hints := { hints with surrealism := calculateSurrealismPotential doc hints }
  { hints with abstractness := calculateAbstractness text hints }

/-! ## Kafka output stage (crawler lines 302-322, 776-828)

A published record is modelled by its topic and key — the fields the spec's
claims constrain.  `json.Marshal` of a `Document` value cannot fail, so the
marshal-error branch of `enhancedProducer` is dead and not modelled. -/

/-- One message handed to `producer.Produce`. -/
structure KafkaMessage where
  topic : String
  key : String
deriving DecidableEq

/-- Default of the `--kafka-topic` flag (line 219). -/
def kafkaTopic : String := "raw.content"

/-- Default of the `--dream-topic` flag (line 220). -/
def dreamTopic : String := "dream.seeds"

/-- The messages `enhancedProducer` (lines 795-828) emits for one consumed
`Document`: always one on `kafkaTopic` keyed by the URL, plus one on
`dreamTopic` exactly when `Surrealism > 0.5`. -/
def producerMessages (doc : Document) : List KafkaMessage :=
  [{ topic := kafkaTopic, key := doc.url }] ++
    (if (1/2 : ℚ) < doc.dreamHints.surrealism then
      [{ topic := dreamTopic, key := doc.url }]
    else [])

/-- `enhancedProducer` over a finite stream of consumed documents. -/
def enhancedProducer (docs : List Document) : List KafkaMessage :=
  docs.flatMap producerMessages

/-- `dreamProcessor` (lines 776-792) forwards every document unchanged: its
surrealism test (`> 0.3 && len > 100`) only guards a log line. -/
def dreamProcessorDoc (doc : Document) : Document := doc

/-- The raw-out → dream-out stage selected in `main` (lines 302-312): with
dreaming enabled the stream passes through `dreamProcessor`, otherwise
through the plain copy loop.  Either way `enhancedProducer` consumes the
result (line 322). -/
def crawlerPipelineMessages (enableDreaming : Bool) (docs : List Document) : List KafkaMessage :=
  enhancedProducer (if enableDreaming then docs.map dreamProcessorDoc else docs)

/-! ## Link extraction (crawler lines 653-703)

`extractLinksWithPriority` walks every `a[href]` element of the parsed page.
The goquery document is modelled by its list of anchors, and `net/url`
resolution against the base URL by an explicit `resolve` function returning
the scheme, host and rendered form of the resolved URL. -/

/-- The result of `base.Parse(href)` when it succeeds: `resolvedURL.Scheme`,
`resolvedURL.Host` and `resolvedURL.String()`. -/
structure GoURL where
  scheme : String
  host : String
  rendered : String
deriving DecidableEq

/-- One `<a href>` element: its `href` attribute and its text content. -/
structure Anchor where
  href : String
  text : String
deriving DecidableEq

/-- The per-anchor body of `extractLinksWithPriority` (lines 657-700):
`none` when the anchor is skipped, otherwise the stored `ExtractedLink`.
The `href` length test of the source is byte length; the inputs considered
here are ASCII. -/
def linkOf (resolve : String → Option GoURL) (baseHost : String) (currentDepth : Nat)
    (a : Anchor) : Option ExtractedLink :=
  if a.href.length < 2 || startsWithHash a.href then none
  else
    match resolve a.href with
    | none => none
    | some u =>
      if u.scheme ≠ "http" ∧ u.scheme ≠ "https" then none
      else
        let linkText := goTrimSpace a.text
        let internal := u.host == baseHost
        let lower := goToLower linkText
        let p1 : Nat := if internal then 3 else 1
        let p2 : Nat :=
          if goContains lower "article" || goContains lower "news" || goContains lower "blog" then
            p1 + 2
          else p1
        let p3 : Nat := if 2 ≤ currentDepth then max 1 (p2 - 1) else p2
        some { url := u.rendered
               text := linkText
               type := if internal then "internal" else "external"
               priority := p3 }

/-- `extractLinksWithPriority`: the stored links of all anchors in document
order.  `currentDepth` is `metadata.depth` of the page being parsed — the
parent's depth (see the call at line 538). -/
def extractLinksWithPriority (resolve : String → Option GoURL) (baseHost : String)
    (currentDepth : Nat) (anchors : List Anchor) : List ExtractedLink :=
  anchors.filterMap (linkOf resolve baseHost currentDepth)

/-- Spec-side keep condition for claim C5 (amended): an anchor is stored iff
its href has at least two characters, does not begin with `#`, resolves, and
resolves to scheme http or https. -/
def keepHref (resolve : String → Option GoURL) (a : Anchor) : Bool :=
  decide (2 ≤ a.href.length) && !startsWithHash a.href &&
    (match resolve a.href with
     | none => false
     | some u => u.scheme == "http" || u.scheme == "https")

/-- Spec-side priority formula for claim C9: base 3 for an internal host
else 1, plus 2 when the lower-cased anchor text mentions article/news/blog,
reduced by 1 with floor 1 when the parsed page's depth is at least 2. -/
def prioritySpec (internal : Bool) (anchorText : String) (parentDepth : Nat) : Nat :=
  let lower := goToLower anchorText
  let base : Nat := if internal then 3 else 1
  let bonus : Nat :=
    if goContains lower "article" || goContains lower "news" || goContains lower "blog" then
      base + 2
    else base
  if 2 ≤ parentDepth then max 1 (bonus - 1) else bonus

/-- Spec-side stored record for claim C5 (amended): resolved URL rendered,
anchor text trimmed, internal/external by host, priority per `prioritySpec`.
The `none` branch is unreachable under `keepHref`. -/
def storedLink (resolve : String → Option GoURL) (baseHost : String) (currentDepth : Nat)
    (a : Anchor) : ExtractedLink :=
  match resolve a.href with
  | some u =>
    { url := u.rendered
      text := goTrimSpace a.text
      type := if u.host == baseHost then "internal" else "external"
      priority := prioritySpec (u.host == baseHost) (goTrimSpace a.text) currentDepth }
  | none => { url := "", text := "", type := "", priority := 0 }

/-! ## Fetch and parse (crawler lines 480-547) and the worker's handling of
the result (lines 444-455)

The HTTP response is modelled by its status, header map (association list
with distinct keys, each key carrying its value list) and declared content
length.  The status-200 parsing path (lines 517-546) runs goquery and the
extractors; its outcome enters as the explicit `parsed` argument — `none`
for a goquery parse failure, `some` for the fully built document and link
list.  The non-200 path, which the claims constrain, is embedded in full. -/

/-- An HTTP response as the crawler sees it. -/
structure HTTPResponse where
  status : Nat
  headers : List (String × List String)
  contentLength : Int
deriving DecidableEq

/-- Go `resp.Header.Get(key)`: first value of the key, or `""`. -/
def headerGet (hs : List (String × List String)) (k : String) : String :=
  match hs.find? (fun p => p.1 == k) with
  | some (_, v :: _) => v
  | _ => ""

/-- The header-capture loop (lines 507-511): first value per key.  The Go
loop ranges over the header map; its result is order-insensitive because the
keys are distinct, so the association-list order stands in for it. -/
def headerFirsts (hs : List (String × List String)) : List (String × String) :=
  hs.filterMap (fun p => p.2.head?.map (fun v => (p.1, v)))

/-- The document initialised at lines 495-511: URL, status, captured
headers, content type and declared size set; every content field at its Go
zero value. -/
def initDoc (rawurl : String) (resp : HTTPResponse) : Document :=
  { url := rawurl
    title := ""
    text := ""
    cleanText := ""
    status := resp.status
    contentHash := ""
    metadata :=
      { domain := ""
        language := ""
        wordCount := 0
        author := ""
        tags := []
        category := ""
        headers := headerFirsts resp.headers
        contentType := headerGet resp.headers "Content-Type"
        size := resp.contentLength }
    chunks := []
    links := []
    media := []
    dreamHints :=
      { emotions := []
        themes := []
        motifs := []
        tone := ""
        complexity := 0
        surrealism := 0
        visualCues := []
        audioCues := []
        colorPalette := []
        abstractness := 0 } }

/-- What `client.Do` produced: a transport error, or a response. -/
inductive FetchOutcome where
  | transportError
  | response (resp : HTTPResponse)
deriving DecidableEq

/-- `enhancedFetchAndParse`: `Except.error ()` models a non-nil Go error
(the worker then drops the URL).  On a response with status other than 200
it returns the initialised document with no links and no error (line 513);
on status 200 the goquery branch result `parsed` decides. -/
def enhancedFetchAndParse (rawurl : String) (outcome : FetchOutcome)
    (parsed : Option (Document × List ExtractedLink)) :
    Except Unit (Document × List ExtractedLink) :=
  match outcome with
  | .transportError => .error ()
  | .response resp =>
    let doc := initDoc rawurl resp
    if resp.status ≠ 200 then .ok (doc, [])
    else
      match parsed with
      | none => .error ()
      | some r => .ok r

/-- The worker's observable handling of one fetch result (lines 446-455):
counter increments and the documents sent on the output channel. -/
structure WorkerObs where
  errorIncs : Nat
  pageIncs : Nat
  emitted : List Document
deriving DecidableEq

/-- Lines 446-455: a fetch error increments the error counter and emits
nothing; otherwise the page counter is incremented and the document is sent
on `out`. -/
def workerHandleFetchResult (r : Except Unit (Document × List ExtractedLink)) : WorkerObs :=
  match r with
  | .error _ => { errorIncs := 1, pageIncs := 0, emitted := [] }
  | .ok (doc, _) => { errorIncs := 0, pageIncs := 1, emitted := [doc] }

/-! ## The concurrent dequeue/claim/fetch loop (crawler lines 386-477)

Claims C7 and C8 are run-wide invariants of the worker pool, so the pool is
modelled as a small-step transition system.  A state holds the frontier
channel content, the seen set, each worker's position in its iteration, and
the log of fetches performed.  Each constructor of `CrawlStep` is one
atomic event of the loop:

* `seed` — the seeder goroutine enqueues a seed at depth 0 (line 317);
* `skipEmpty` — line 395: an empty URL is dropped before the seen check;
* `skipSeen` — line 400: `seen.LoadOrStore` found the URL already claimed;
* `skipDepth` — line 405: the claim succeeded (the URL is now seen, the
  atomic `LoadOrStore` ran first) but `depth > maxDepth`, so the iteration
  ends before fetching;
* `claim` — lines 400-442: the claim succeeded, the depth bound holds, and
  an idle worker now owns the URL (URL parse, whitelist, robots and rate
  limit follow inside the iteration);
* `abort` — the owning iteration ends without a fetch: URL-parse failure
  (line 409), whitelist miss (line 417), robots denial (line 434),
  rate-limiter cancellation (line 440) or transport error (line 447);
* `fetch` — line 446: the owning worker performs the HTTP fetch;
* `child` — lines 458-473: after fetching, a link is enqueued at the
  parent's depth plus one (dropping on a full queue is modelled by simply
  not taking the step);
* `finish` — the iteration returns to the top of the loop. -/

/-- A frontier entry: URL and crawl depth (`URLWithMetadata`, parent and
priority dropped — no claim constrains them). -/
structure QEntry where
  url : String
  depth : Nat
deriving DecidableEq

/-- Where one worker stands in its current iteration. -/
inductive WStatus where
  | idle
  | processing (e : QEntry)
  | fetched (e : QEntry)
deriving DecidableEq

/-- The shared state of the worker pool. -/
structure CrawlState where
  queue : List QEntry
  seen : List String
  workers : List WStatus
  fetchLog : List QEntry
deriving DecidableEq

/-- One atomic event of the crawl loop; `maxDepth` is the `--max-depth`
flag. -/
inductive CrawlStep (maxDepth : Nat) : CrawlState → CrawlState → Prop where
  | seed (s : CrawlState) (u : String) :
      CrawlStep maxDepth s { s with queue := s.queue ++ [{ url := u, depth := 0 }] }
  | skipEmpty (s : CrawlState) (e : QEntry) (rest : List QEntry) :
      s.queue = e :: rest → e.url = "" →
      CrawlStep maxDepth s { s with queue := rest }
  | skipSeen (s : CrawlState) (e : QEntry) (rest : List QEntry) :
      s.queue = e :: rest → e.url ≠ "" → e.url ∈ s.seen →
      CrawlStep maxDepth s { s with queue := rest }
  | skipDepth (s : CrawlState) (e : QEntry) (rest : List QEntry) :
      s.queue = e :: rest → e.url ≠ "" → e.url ∉ s.seen → maxDepth < e.depth →
      CrawlStep maxDepth s { s with queue := rest, seen := e.url :: s.seen }
  | claim (s : CrawlState) (e : QEntry) (rest : List QEntry) (i : Nat) :
      s.queue = e :: rest → e.url ≠ "" → e.url ∉ s.seen → e.depth ≤ maxDepth →
      s.workers.get? i = some .idle →
      CrawlStep maxDepth s
        { s with queue := rest, seen := e.url :: s.seen,
                 workers := s.workers.set i (.processing e) }
  | abort (s : CrawlState) (e : QEntry) (i : Nat) :
      s.workers.get? i = some (.processing e) →
      CrawlStep maxDepth s { s with workers := s.workers.set i .idle }
  | fetch (s : CrawlState) (e : QEntry) (i : Nat) :
      s.workers.get? i = some (.processing e) →
      CrawlStep maxDepth s
        { s with workers := s.workers.set i (.fetched e), fetchLog := s.fetchLog ++ [e] }
  | child (s : CrawlState) (e : QEntry) (i : Nat) (v : String) :
      s.workers.get? i = some (.fetched e) →
      CrawlStep maxDepth s
        { s with queue := s.queue ++ [{ url := v, depth := e.depth + 1 }] }
  | finish (s : CrawlState) (e : QEntry) (i : Nat) :
      s.workers.get? i = some (.fetched e) →
      CrawlStep maxDepth s { s with workers := s.workers.set i .idle }

/-- The initial state: empty frontier, empty seen set, `w` idle workers,
nothing fetched. -/
def initState (w : Nat) : CrawlState :=
  { queue := [], seen := [], workers := List.replicate w .idle, fetchLog := [] }

/-- States a run with `w` workers and depth bound `maxDepth` can reach. -/
def Reachable (maxDepth w : Nat) (s : CrawlState) : Prop :=
  Relation.ReflTransGen (CrawlStep maxDepth) (initState w) s

/-- A worker position owns URL `u` with the fetch still ahead of it. -/
def ownsP (u : String) : WStatus → Bool
  | .processing e => e.url == u
  | _ => false

/-- Number of workers whose current iteration owns URL `u` and has not yet
fetched it. -/
def owningCount (u : String) (ws : List WStatus) : Nat :=
  (ws.filter (ownsP u)).length

/-- Inductive invariant behind URL deduplication: for every URL, fetches
already logged plus iterations still owning it never exceed one, and are
zero for URLs not yet in the seen set. -/
def DedupInv (s : CrawlState) : Prop :=
  ∀ u : String,
    (s.fetchLog.map QEntry.url).count u + owningCount u s.workers ≤
      (if u ∈ s.seen then 1 else 0)

/-- A worker position respects the depth bound. -/
def workerDepthOK (maxDepth : Nat) : WStatus → Prop
  | .idle => True
  | .processing e => e.depth ≤ maxDepth
  | .fetched e => e.depth ≤ maxDepth

/-- Inductive invariant behind the depth bound: every owning iteration and
every logged fetch is within `maxDepth`. -/
def DepthInv (maxDepth : Nat) (s : CrawlState) : Prop :=
  (∀ w ∈ s.workers, workerDepthOK maxDepth w) ∧ ∀ e ∈ s.fetchLog, e.depth ≤ maxDepth

/-! ## Concrete sample inputs used by witnesses and counterexamples -/

/-- A document with every content field empty and a given surrealism score
(the other values are irrelevant to the output stage, which only reads the
URL and the score). -/
def sampleDoc (q : ℚ) : Document :=
  { url := "http://site.test/page"
    title := ""
    text := ""
    cleanText := ""
    status := 200
    contentHash := ""
    metadata :=
      { domain := "site.test", language := "", wordCount := 0, author := "", tags := []
        category := "", headers := [], contentType := "", size := 0 }
    chunks := []
    links := []
    media := []
    dreamHints :=
      { emotions := [], themes := [], motifs := [], tone := "", complexity := 0
        surrealism := q, visualCues := [], audioCues := [], colorPalette := []
        abstractness := 0 } }

/-- Resolver for the claim C5 counterexample: the one-character href `"x"`
resolves to a plain http URL. -/
def resolveCex : String → Option GoURL :=
  fun h =>
    if h == "x" then some { scheme := "http", host := "h.test", rendered := "http://h.test/x" }
    else none

/-- Resolver for the claim C9 witness. -/
def resolveDemo : String → Option GoURL :=
  fun h =>
    if h == "/page2" then
      some { scheme := "http", host := "site.test", rendered := "http://site.test/page2" }
    else none

/-- The link the C9 witness expects: internal (+3), anchor text mentions
"news" (+2), parsed at depth 2 (−1). -/
def linkDemo : ExtractedLink :=
  { url := "http://site.test/page2", text := "Latest News", type := "internal", priority := 4 }

/-- A 404 response used by the claim C6 witness. -/
def resp404 : HTTPResponse :=
  { status := 404, headers := [("Content-Type", ["text/html"])], contentLength := 0 }

/-- Intermediate states of the demonstration run used by the C7/C8
witnesses: one worker, `--max-depth=3`, one seed fetched once. -/
def demoA : CrawlState :=
  { queue := [{ url := "http://a.test/", depth := 0 }], seen := [], workers := [.idle], fetchLog := [] }

def demoB : CrawlState :=
  { queue := [], seen := ["http://a.test/"],
    workers := [.processing { url := "http://a.test/", depth := 0 }], fetchLog := [] }

def demoC : CrawlState :=
  { queue := [], seen := ["http://a.test/"],
    workers := [.fetched { url := "http://a.test/", depth := 0 }],
    fetchLog := [{ url := "http://a.test/", depth := 0 }] }

def demoD : CrawlState :=
  { queue := [{ url := "http://a.test/b", depth := 1 }], seen := ["http://a.test/"],
    workers := [.fetched { url := "http://a.test/", depth := 0 }],
    fetchLog := [{ url := "http://a.test/", depth := 0 }] }

def demoFinal : CrawlState :=
  { queue := [{ url := "http://a.test/b", depth := 1 }], seen := ["http://a.test/"],
    workers := [.idle], fetchLog := [{ url := "http://a.test/", depth := 0 }] }

/-! # Theorems -/

/-! ## Keyword extraction: claims C3 and C4 -/

/-- When at most ten words of the iteration order qualify, the loop keeps
exactly the qualifying words, in iteration order. -/
theorem keywordLoop_eq_filter (cnt : String → Nat) :
    ∀ (ord acc : List String),
      acc.length + (ord.filter (keepKeyword cnt)).length ≤ 10 →
      keywordLoop cnt ord acc = acc ++ ord.filter (keepKeyword cnt) := by
  intro ord
  induction ord with
  | nil => intro acc _; simp [keywordLoop]
  | cons w rest ih =>
    intro acc hlen
    by_cases hk : keepKeyword cnt w = true
    · have hfil : (w :: rest).filter (keepKeyword cnt) = w :: rest.filter (keepKeyword cnt) := by
        simp [List.filter_cons, hk]
      rw [hfil] at hlen ⊢
      simp only [keywordLoop, hk, if_true]
      by_cases hten : 10 ≤ (acc ++ [w]).length
      · have hlen0 : (rest.filter (keepKeyword cnt)).length = 0 := by
          simp only [List.length_append, List.length_cons, List.length_nil] at hlen hten
          omega
        rw [if_pos hten, List.length_eq_zero.mp hlen0]
      · rw [if_neg hten, ih (acc ++ [w]) (by simp at hlen ⊢; omega)]
        simp
    · have hk' : keepKeyword cnt w = false := by
        cases h : keepKeyword cnt w
        · rfl
        · exact absurd h hk
      have hfil : (w :: rest).filter (keepKeyword cnt) = rest.filter (keepKeyword cnt) := by
        simp [List.filter_cons, hk']
      rw [hfil] at hlen ⊢
      simp only [keywordLoop, hk', if_false, Bool.false_eq_true]
      by_cases hten : 10 ≤ acc.length
      · have : rest.filter (keepKeyword cnt) = [] := by
          have h0 : (rest.filter (keepKeyword cnt)).length = 0 := by omega
          exact List.length_eq_zero.mp h0
        rw [if_pos hten, this]
        simp
      · rw [if_neg hten]
        exact ih acc hlen

/-- The loop never returns more than ten keywords (its break condition). -/
theorem keywordLoop_length_le (cnt : String → Nat) :
    ∀ (ord acc : List String), acc.length < 10 → (keywordLoop cnt ord acc).length ≤ 10 := by
  intro ord
  induction ord with
  | nil => intro acc h; simpa [keywordLoop] using Nat.le_of_lt h
  | cons w rest ih =>
    intro acc h
    simp only [keywordLoop]
    by_cases hk : keepKeyword cnt w = true
    · simp only [hk, if_true]
      by_cases hten : 10 ≤ (acc ++ [w]).length
      · rw [if_pos hten]
        simp only [List.length_append, List.length_cons, List.length_nil]
        omega
      · rw [if_neg hten]
        exact ih (acc ++ [w]) (by simp at hten ⊢; omega)
    · have hk' : keepKeyword cnt w = false := by
        cases hkk : keepKeyword cnt w
        · rfl
        · exact absurd hkk hk
      simp only [hk', Bool.false_eq_true, if_false]
      by_cases hten : 10 ≤ acc.length
      · rw [if_pos hten]; omega
      · rw [if_neg hten]; exact ih acc h

/-- Claim C4 (amended): `extractKeywords` lowercases and tokenizes on white
space, strips leading and trailing `.,!?;:`, and drops stop words and every
token of length at most 3; provided at most ten tokens qualify, the result
contains a token iff it survives that filter and occurs at least twice or
has length greater than 6, for any map iteration order; at most ten
keywords are ever returned. -/
theorem extractKeywords_characterization (text : String) (ord : List String)
    (hord : ValidKeyOrder ord text)
    (hsmall : (qualKeywords text).length ≤ 10) :
    (extractKeywords ord text).length ≤ 10 ∧
      ∀ w : String, w ∈ extractKeywords ord text ↔
        (w ∈ (filteredWords text).dedup ∧
          (2 ≤ (filteredWords text).count w ∨ 6 < w.length)) := by
  have hperm := hord.filter (keepKeyword (fun w => (filteredWords text).count w))
  have hlen : (ord.filter (keepKeyword (fun w => (filteredWords text).count w))).length ≤ 10 := by
    rw [hperm.length_eq]
    exact hsmall
  have heq : extractKeywords ord text =
      ord.filter (keepKeyword (fun w => (filteredWords text).count w)) := by
    have := keywordLoop_eq_filter (fun w => (filteredWords text).count w) ord []
      (by simpa using hlen)
    simpa [extractKeywords] using this
  constructor
  · rw [heq]; exact hlen
  · intro w
    rw [heq, List.mem_filter, hord.mem_iff, keepKeyword]
    simp [Bool.or_eq_true, decide_eq_true_iff]

/-- Witness for claim C4's amended theorem at the text
"elephant giraffe elephant": both qualifying words are kept. -/
theorem extractKeywords_characterization_witness :
    (extractKeywords ["giraffe", "elephant"] "elephant giraffe elephant").length ≤ 10 ∧
      "elephant" ∈ extractKeywords ["giraffe", "elephant"] "elephant giraffe elephant" :=
  ⟨(extractKeywords_characterization "elephant giraffe elephant" ["giraffe", "elephant"]
      (by decide) (by decide)).1,
    ((extractKeywords_characterization "elephant giraffe elephant" ["giraffe", "elephant"]
      (by decide) (by decide)).2 "elephant").mpr (by decide)⟩

/-- Counterexample to claim C4 as stated.  First input: in "cat cat" the
word "cat" is no stop word and occurs twice, yet the result is empty — the
code additionally requires `len(word) > 3`.  Second input: the claim's
trailing-only strip would keep the token ";;;;abcd" (length 8, twice), but
the code's `strings.Trim` strips both ends and returns "abcd" instead. -/
theorem extractKeywords_claim_counterexample :
    ValidKeyOrder [] "cat cat" ∧
    (goFields (goToLower "cat cat")).count "cat" = 2 ∧
    "cat" ∉ stopWords ∧
    extractKeywords [] "cat cat" = [] ∧
    ValidKeyOrder ["abcd"] ";;;;abcd ;;;;abcd" ∧
    (goFields (goToLower ";;;;abcd ;;;;abcd")).count ";;;;abcd" = 2 ∧
    ";;;;abcd" ∉ stopWords ∧
    extractKeywords ["abcd"] ";;;;abcd ;;;;abcd" = ["abcd"] := by
  refine ⟨?_, by decide, by decide, by decide, ?_, by decide, by decide, by decide⟩
  · decide
  · decide

/-- Claim C3 (refuted, code bug): `extractKeywords` ranges over a Go map, so
two runs on the byte-identical text "apple apple banana banana" may see the
keys in either order and produce different keyword lists for the same chunk. -/
theorem extractKeywords_order_dependent :
    ValidKeyOrder ["apple", "banana"] "apple apple banana banana" ∧
    ValidKeyOrder ["banana", "apple"] "apple apple banana banana" ∧
    extractKeywords ["apple", "banana"] "apple apple banana banana" ≠
      extractKeywords ["banana", "apple"] "apple apple banana banana" := by
  refine ⟨?_, ?_, by decide⟩
  · decide
  · decide

/-! ## Dream-hint constants: claim C10 -/

/-- Claim C10: `extractVisualCues` and `extractAudioCues` return fixed
lists for every input, so the visual-cues and audio-cues fields of every
generated dream-hints record are those constants, whatever the document. -/
theorem dream_cues_constant :
    (∀ t : String,
      extractVisualCues t = ["ethereal lighting", "flowing forms", "crystalline structures"]) ∧
    (∀ t : String,
      extractAudioCues t = ["ambient whispers", "digital harmonics", "pulsing rhythms"]) ∧
    ∀ doc : Document,
      (generateDreamHints doc).visualCues =
          ["ethereal lighting", "flowing forms", "crystalline structures"] ∧
        (generateDreamHints doc).audioCues =
          ["ambient whispers", "digital harmonics", "pulsing rhythms"] :=
  ⟨fun _ => rfl, fun _ => rfl, fun _ => ⟨rfl, rfl⟩⟩

/-! ## Output topics: claims C1 and C2 -/

/-- Claim C2: every consumed document is published on `raw.content` keyed by
its URL, every emitted message carries the URL as key, and a message goes to
`dream.seeds` exactly when the surrealism score exceeds 0.5. -/
theorem producer_topics_and_gate (doc : Document) :
    ({ topic := kafkaTopic, key := doc.url } : KafkaMessage) ∈ producerMessages doc ∧
    (∀ m ∈ producerMessages doc, m.key = doc.url) ∧
    (({ topic := dreamTopic, key := doc.url } : KafkaMessage) ∈ producerMessages doc ↔
      (1/2 : ℚ) < doc.dreamHints.surrealism) := by
  by_cases h : (1/2 : ℚ) < doc.dreamHints.surrealism
  · have hlist : producerMessages doc =
        [{ topic := kafkaTopic, key := doc.url }, { topic := dreamTopic, key := doc.url }] := by
      unfold producerMessages
      rw [if_pos h]
      rfl
    rw [hlist]
    refine ⟨by simp, ?_, iff_of_true (by simp) h⟩
    intro m hm
    rcases List.mem_cons.mp hm with h1 | h2
    · rw [h1]
    · rcases List.mem_cons.mp h2 with h1 | h3
      · rw [h1]
      · simp at h3
  · have hlist : producerMessages doc = [{ topic := kafkaTopic, key := doc.url }] := by
      unfold producerMessages
      rw [if_neg h]
      rfl
    rw [hlist]
    refine ⟨by simp, ?_, iff_of_false ?_ h⟩
    · intro m hm
      rcases List.mem_cons.mp hm with h1 | h2
      · rw [h1]
      · simp at h2
    · intro hmem
      rcases List.mem_cons.mp hmem with h1 | h2
      · have htop : dreamTopic = kafkaTopic := congrArg KafkaMessage.topic h1
        exact absurd htop (by decide)
      · simp at h2

/-- Witness for claim C2's theorem at a document of surrealism 3/5. -/
theorem producer_topics_and_gate_witness :
    ({ topic := kafkaTopic, key := (sampleDoc (3/5)).url } : KafkaMessage) ∈
        producerMessages (sampleDoc (3/5)) ∧
      ({ topic := dreamTopic, key := (sampleDoc (3/5)).url } : KafkaMessage) ∈
        producerMessages (sampleDoc (3/5)) :=
  ⟨(producer_topics_and_gate (sampleDoc (3/5))).1,
    (producer_topics_and_gate (sampleDoc (3/5))).2.2.mpr (by norm_num [sampleDoc])⟩

/-- Counterexample to claim C1 as stated: run with `--enable-dreaming=false`
on a document of surrealism 3/5 > 0.5, a message is still published on
`dream.seeds` — the disabled branch forwards every document to the same
producer, whose gate ignores the flag. -/
theorem dreamSeeds_published_with_flag_off :
    ({ topic := dreamTopic, key := (sampleDoc (3/5)).url } : KafkaMessage) ∈
      crawlerPipelineMessages false [sampleDoc (3/5)] := by
  have h : (1/2 : ℚ) < (sampleDoc (3/5)).dreamHints.surrealism := by norm_num [sampleDoc]
  have hlist : crawlerPipelineMessages false [sampleDoc (3/5)] =
      producerMessages (sampleDoc (3/5)) := by
    simp [crawlerPipelineMessages, enhancedProducer]
  rw [hlist]
  unfold producerMessages
  rw [if_pos h]
  simp

/-- Claim C1 (amended): the `--enable-dreaming` flag does not affect what is
published on either topic — both settings yield exactly the producer's
output, and any consumed document whose surrealism exceeds 0.5 is published
on `dream.seeds` under either setting. -/
theorem pipeline_flag_independent (enableDreaming : Bool) (docs : List Document) :
    crawlerPipelineMessages enableDreaming docs = enhancedProducer docs ∧
      ∀ doc ∈ docs, (1/2 : ℚ) < doc.dreamHints.surrealism →
        ({ topic := dreamTopic, key := doc.url } : KafkaMessage) ∈
          crawlerPipelineMessages enableDreaming docs := by
  have hmap : docs.map dreamProcessorDoc = docs := by
    induction docs with
    | nil => rfl
    | cons d ds ih => simp [dreamProcessorDoc, ih]
  have heq : crawlerPipelineMessages enableDreaming docs = enhancedProducer docs := by
    cases enableDreaming
    · rfl
    · simp [crawlerPipelineMessages, hmap]
  refine ⟨heq, ?_⟩
  intro doc hdoc hsurr
  rw [heq]
  refine List.mem_flatMap.mpr ⟨doc, hdoc, ?_⟩
  unfold producerMessages
  rw [if_pos hsurr]
  simp

/-- Witness for claim C1's amended theorem: flag off, one high-surrealism
document, the dream-topic message is emitted. -/
theorem pipeline_flag_independent_witness :
    crawlerPipelineMessages false [sampleDoc (4/5)] = enhancedProducer [sampleDoc (4/5)] ∧
      ({ topic := dreamTopic, key := (sampleDoc (4/5)).url } : KafkaMessage) ∈
        crawlerPipelineMessages false [sampleDoc (4/5)] :=
  ⟨(pipeline_flag_independent false [sampleDoc (4/5)]).1,
    (pipeline_flag_independent false [sampleDoc (4/5)]).2 (sampleDoc (4/5)) (by simp)
      (by norm_num [sampleDoc])⟩

/-! ## Link extraction: claims C5 and C9 -/

/-- An anchor failing the keep condition is skipped. -/
theorem linkOf_eq_none (resolve : String → Option GoURL) (baseHost : String)
    (currentDepth : Nat) (a : Anchor) (h : keepHref resolve a = false) :
    linkOf resolve baseHost currentDepth a = none := by
  unfold keepHref at h
  unfold linkOf
  by_cases h2 : (decide (a.href.length < 2) || startsWithHash a.href) = true
  · rw [if_pos h2]
  · rw [if_neg h2]
    simp only [Bool.or_eq_true, decide_eq_true_eq, not_or, Bool.not_eq_true] at h2
    obtain ⟨hlen, hhash⟩ := h2
    have hA : decide (2 ≤ a.href.length) = true := by simp; omega
    have hB : (!startsWithHash a.href) = true := by rw [hhash]; rfl
    rw [hA, hB] at h
    simp only [Bool.true_and] at h
    cases hr : resolve a.href with
    | none => simp only [hr]
    | some u =>
      rw [hr] at h
      simp only [hr]
      rw [if_pos ?_]
      simp only [Bool.or_eq_false_iff, beq_eq_false_iff_ne] at h
      exact h

/-- An anchor passing the keep condition is stored as `storedLink`. -/
theorem linkOf_eq_some (resolve : String → Option GoURL) (baseHost : String)
    (currentDepth : Nat) (a : Anchor) (h : keepHref resolve a = true) :
    linkOf resolve baseHost currentDepth a =
      some (storedLink resolve baseHost currentDepth a) := by
  unfold keepHref at h
  simp only [Bool.and_eq_true, decide_eq_true_eq, Bool.not_eq_true'] at h
  obtain ⟨⟨hlen, hhash⟩, hsch⟩ := h
  unfold linkOf storedLink
  have h2 : (decide (a.href.length < 2) || startsWithHash a.href) = false := by
    rw [hhash]
    simp
    omega
  rw [h2]
  simp only [Bool.false_eq_true, if_false]
  cases hr : resolve a.href with
  | none => rw [hr] at hsch; simp at hsch
  | some u =>
    rw [hr] at hsch
    simp only [hr]
    have hs : ¬(u.scheme ≠ "http" ∧ u.scheme ≠ "https") := by
      rcases Bool.or_eq_true_iff.mp hsch with h1 | h1
      · intro hc; exact hc.1 (by simpa using h1)
      · intro hc; exact hc.2 (by simpa using h1)
    rw [if_neg hs]
    unfold prioritySpec
    rfl

/-- Claim C5 (amended): link extraction stores exactly the anchors whose
href has at least two characters, does not begin with `#`, and resolves
against the base URL to an http or https URL — each stored with the rendered
resolved URL, the trimmed anchor text, its internal/external kind, and the
priority formula; every other anchor is rejected. -/
theorem extractLinks_filter_spec (resolve : String → Option GoURL) (baseHost : String)
    (currentDepth : Nat) (anchors : List Anchor) :
    extractLinksWithPriority resolve baseHost currentDepth anchors =
      (anchors.filter (keepHref resolve)).map (storedLink resolve baseHost currentDepth) := by
  induction anchors with
  | nil => rfl
  | cons a as ih =>
    unfold extractLinksWithPriority at ih ⊢
    rw [List.filterMap_cons, List.filter_cons]
    cases hk : keepHref resolve a with
    | false =>
      rw [linkOf_eq_none resolve baseHost currentDepth a hk]
      simpa using ih
    | true =>
      rw [linkOf_eq_some resolve baseHost currentDepth a hk]
      simpa using ih

/-- Counterexample to claim C5 as stated: the one-character href `"x"` is
not empty, does not begin with `#`, and resolves to an http URL, yet the
extractor rejects it — the source drops every href of byte length < 2. -/
theorem single_char_href_rejected :
    extractLinksWithPriority resolveCex "h.test" 0 [{ href := "x", text := "t" }] = [] ∧
      "x" ≠ "" ∧ startsWithHash "x" = false ∧
      resolveCex "x" = some { scheme := "http", host := "h.test", rendered := "http://h.test/x" } := by
  refine ⟨by decide, by decide, by decide, by decide⟩

/-- Claim C9: every stored link's priority is 3 for an internal host else 1,
plus 2 when the lower-cased anchor text mentions article, news or blog,
reduced by 1 with floor 1 when the parsed page's own depth (the parent of
the enqueued children) is at least 2; the stored URL and text are the
rendered resolution and the trimmed anchor text. -/
theorem link_priority_formula (resolve : String → Option GoURL) (baseHost : String)
    (currentDepth : Nat) (a : Anchor) (u : GoURL) (l : ExtractedLink)
    (hu : resolve a.href = some u)
    (hl : linkOf resolve baseHost currentDepth a = some l) :
    l.url = u.rendered ∧ l.text = goTrimSpace a.text ∧
      l.priority = prioritySpec (u.host == baseHost) (goTrimSpace a.text) currentDepth := by
  unfold linkOf at hl
  by_cases h2 : (decide (a.href.length < 2) || startsWithHash a.href) = true
  · rw [if_pos h2] at hl; exact absurd hl (by simp)
  · rw [if_neg h2] at hl
    simp only [hu] at hl
    by_cases hsch : u.scheme ≠ "http" ∧ u.scheme ≠ "https"
    · rw [if_pos hsch] at hl; exact absurd hl (by simp)
    · rw [if_neg hsch] at hl
      simp only [Option.some.injEq] at hl
      rw [← hl]
      refine ⟨rfl, rfl, ?_⟩
      unfold prioritySpec
      rfl

/-- Witness for claim C9's theorem: internal link with "news" in the anchor
text, parsed at depth 2 — priority (3 + 2) − 1 = 4. -/
theorem link_priority_formula_witness :
    linkDemo.url = "http://site.test/page2" ∧
      linkDemo.text = goTrimSpace " Latest News " ∧
      linkDemo.priority = prioritySpec ("site.test" == "site.test") (goTrimSpace " Latest News ") 2 :=
  link_priority_formula resolveDemo "site.test" 2 { href := "/page2", text := " Latest News " }
    { scheme := "http", host := "site.test", rendered := "http://site.test/page2" } linkDemo
    (by decide) (by decide)

/-! ## Non-OK responses: claim C6 -/

/-- Claim C6: a fetch whose response status is not 2xx is not an error —
`enhancedFetchAndParse` returns the initialised document carrying the
reported status, the captured headers, and empty title, text, chunks, links
and media, with no links to enqueue; the worker then emits that document,
incrementing the page counter and not the error counter. -/
theorem non_ok_status_not_error (rawurl : String) (resp : HTTPResponse)
    (parsed : Option (Document × List ExtractedLink))
    (h : ¬(200 ≤ resp.status ∧ resp.status < 300)) :
    enhancedFetchAndParse rawurl (.response resp) parsed = .ok (initDoc rawurl resp, []) ∧
      (initDoc rawurl resp).status = resp.status ∧
      (initDoc rawurl resp).metadata.headers = headerFirsts resp.headers ∧
      (initDoc rawurl resp).title = "" ∧
      (initDoc rawurl resp).text = "" ∧
      (initDoc rawurl resp).chunks = [] ∧
      (initDoc rawurl resp).links = [] ∧
      (initDoc rawurl resp).media = [] ∧
      workerHandleFetchResult (enhancedFetchAndParse rawurl (.response resp) parsed) =
        { errorIncs := 0, pageIncs := 1, emitted := [initDoc rawurl resp] } := by
  have hne : resp.status ≠ 200 := by
    intro heq
    exact h (by omega)
  have hres : enhancedFetchAndParse rawurl (.response resp) parsed =
      .ok (initDoc rawurl resp, []) := by
    show (let doc := initDoc rawurl resp
      if resp.status ≠ 200 then Except.ok (doc, ([] : List ExtractedLink))
      else
        match parsed with
        | none => Except.error ()
        | some r => Except.ok r) = Except.ok (initDoc rawurl resp, [])
    rw [if_pos hne]
  refine ⟨hres, rfl, rfl, rfl, rfl, rfl, rfl, rfl, ?_⟩
  rw [hres]
  rfl

/-- Witness for claim C6's theorem at a 404 response. -/
theorem non_ok_status_not_error_witness :
    enhancedFetchAndParse "http://e.test/x" (.response resp404) none =
        .ok (initDoc "http://e.test/x" resp404, []) ∧
      (initDoc "http://e.test/x" resp404).status = resp404.status ∧
      (initDoc "http://e.test/x" resp404).metadata.headers = headerFirsts resp404.headers ∧
      (initDoc "http://e.test/x" resp404).title = "" ∧
      (initDoc "http://e.test/x" resp404).text = "" ∧
      (initDoc "http://e.test/x" resp404).chunks = [] ∧
      (initDoc "http://e.test/x" resp404).links = [] ∧
      (initDoc "http://e.test/x" resp404).media = [] ∧
      workerHandleFetchResult (enhancedFetchAndParse "http://e.test/x" (.response resp404) none) =
        { errorIncs := 0, pageIncs := 1, emitted := [initDoc "http://e.test/x" resp404] } :=
  non_ok_status_not_error "http://e.test/x" resp404 none (by decide)

/-! ## Worker-pool invariants: claims C7 and C8 -/

/-- Setting a list element trades its contribution to a filtered length for
the new element's. -/
theorem filter_length_set (p : WStatus → Bool) :
    ∀ (ws : List WStatus) (i : Nat) (st st' : WStatus), ws.get? i = some st →
      ((ws.set i st').filter p).length + (if p st then 1 else 0) =
        (ws.filter p).length + (if p st' then 1 else 0) := by
  intro ws
  induction ws with
  | nil => intro i st st' h; simp at h
  | cons w tl ih =>
    intro i st st' h
    cases i with
    | zero =>
      have hw : w = st := by simpa using h
      rw [← hw]
      by_cases h1 : p st' <;> by_cases h2 : p w <;>
        simp [List.filter_cons, h1, h2]
    | succ n =>
      simp only [List.get?] at h
      have hrec := ih n st st' h
      by_cases h1 : p w <;>
        simp [List.filter_cons, h1] <;> omega

/-- `owningCount` under a worker transition at index `i`. -/
theorem owningCount_set (u : String) (ws : List WStatus) (i : Nat) (st st' : WStatus)
    (h : ws.get? i = some st) :
    owningCount u (ws.set i st') + (if ownsP u st then 1 else 0) =
      owningCount u ws + (if ownsP u st' then 1 else 0) := by
  have := filter_length_set (ownsP u) ws i st st' h
  simpa [owningCount] using this

/-- The initial state satisfies the dedup invariant. -/
theorem dedupInv_init (w : Nat) : DedupInv (initState w) := by
  intro u
  have hfil : (List.replicate w WStatus.idle).filter (ownsP u) = [] := by
    rw [List.filter_replicate]
    simp [ownsP]
  simp [initState, owningCount, hfil]

/-- Every step of the crawl loop preserves the dedup invariant. -/
theorem dedupInv_step {maxDepth : Nat} {s s' : CrawlState}
    (hstep : CrawlStep maxDepth s s') (hinv : DedupInv s) : DedupInv s' := by
  cases hstep with
  | seed u => exact fun v => hinv v
  | skipEmpty e rest hq he => exact fun v => hinv v
  | skipSeen e rest hq hne hseen => exact fun v => hinv v
  | child e i v hw => exact fun v => hinv v
  | skipDepth e rest hq hne hns hd =>
    intro u
    show (s.fetchLog.map QEntry.url).count u + owningCount u s.workers ≤
      (if u ∈ e.url :: s.seen then 1 else 0)
    have h0 := hinv u
    by_cases hu : u ∈ e.url :: s.seen
    · rw [if_pos hu]
      refine le_trans h0 ?_
      split <;> omega
    · rw [if_neg hu]
      have hu' : u ∉ s.seen := fun hc => hu (List.mem_cons_of_mem _ hc)
      rw [if_neg hu'] at h0
      exact h0
  | claim e rest i hq hne hns hd hw =>
    intro u
    show (s.fetchLog.map QEntry.url).count u + owningCount u (s.workers.set i (.processing e)) ≤
      (if u ∈ e.url :: s.seen then 1 else 0)
    have h0 := hinv u
    have hset := owningCount_set u s.workers i .idle (.processing e) hw
    by_cases he : e.url = u
    · subst he
      rw [if_neg hns] at h0
      rw [if_pos (List.mem_cons_self _ _)]
      simp [ownsP] at hset
      omega
    · have hcons : (u ∈ e.url :: s.seen) ↔ u ∈ s.seen := by
        constructor
        · intro hc
          rcases List.mem_cons.mp hc with hc | hc
          · exact absurd hc.symm he
          · exact hc
        · exact List.mem_cons_of_mem _
      have hP : ownsP u (.processing e) = false := by
        simp [ownsP]
        exact he
      rw [hP] at hset
      simp [ownsP] at hset
      by_cases hu : u ∈ s.seen
      · rw [if_pos (hcons.mpr hu)]
        rw [if_pos hu] at h0
        omega
      · rw [if_neg (fun hc => hu (hcons.mp hc))]
        rw [if_neg hu] at h0
        omega
  | abort e i hw =>
    intro u
    show (s.fetchLog.map QEntry.url).count u + owningCount u (s.workers.set i .idle) ≤
      (if u ∈ s.seen then 1 else 0)
    have h0 := hinv u
    have hset := owningCount_set u s.workers i (.processing e) .idle hw
    simp [ownsP] at hset
    omega
  | fetch e i hw =>
    intro u
    show ((s.fetchLog ++ [e]).map QEntry.url).count u +
        owningCount u (s.workers.set i (.fetched e)) ≤
      (if u ∈ s.seen then 1 else 0)
    have h0 := hinv u
    have hset := owningCount_set u s.workers i (.processing e) (.fetched e) hw
    have hcnt : ((s.fetchLog ++ [e]).map QEntry.url).count u =
        (s.fetchLog.map QEntry.url).count u + (if e.url = u then 1 else 0) := by
      by_cases he : e.url = u <;> simp [List.count_append, List.count_cons, he]
    rw [hcnt]
    by_cases he : e.url = u <;> simp [ownsP, he] at hset ⊢ <;> omega
  | finish e i hw =>
    intro u
    show (s.fetchLog.map QEntry.url).count u + owningCount u (s.workers.set i .idle) ≤
      (if u ∈ s.seen then 1 else 0)
    have h0 := hinv u
    have hset := owningCount_set u s.workers i (.fetched e) .idle hw
    simp [ownsP] at hset
    omega

/-- Every reachable state satisfies the dedup invariant. -/
theorem dedupInv_reachable {maxDepth w : Nat} {s : CrawlState} (h : Reachable maxDepth w s) :
    DedupInv s := by
  unfold Reachable at h
  induction h with
  | refl => exact dedupInv_init w
  | tail _hsteps hstep ih => exact dedupInv_step hstep ih

/-- Claim C7: in any reachable state of a run, each distinct URL appears at
most once in the fetch log — the first iteration to claim it in the seen set
proceeds, later dequeues of the same URL are skipped before fetching. -/
theorem url_fetched_at_most_once (maxDepth w : Nat) (s : CrawlState)
    (h : Reachable maxDepth w s) (u : String) :
    (s.fetchLog.map QEntry.url).count u ≤ 1 := by
  have h0 := dedupInv_reachable h u
  have h1 : (if u ∈ s.seen then 1 else 0) ≤ 1 := by split <;> omega
  omega

/-- The initial state satisfies the depth invariant. -/
theorem depthInv_init (maxDepth w : Nat) : DepthInv maxDepth (initState w) := by
  constructor
  · intro st hst
    have : st = WStatus.idle := List.eq_of_mem_replicate hst
    rw [this]
    trivial
  · intro e he
    simp [initState] at he

/-- Every step of the crawl loop preserves the depth invariant. -/
theorem depthInv_step {maxDepth : Nat} {s s' : CrawlState}
    (hstep : CrawlStep maxDepth s s') (hinv : DepthInv maxDepth s) : DepthInv maxDepth s' := by
  obtain ⟨hws, hlog⟩ := hinv
  cases hstep with
  | seed u => exact ⟨hws, hlog⟩
  | skipEmpty e rest hq he => exact ⟨hws, hlog⟩
  | skipSeen e rest hq hne hseen => exact ⟨hws, hlog⟩
  | skipDepth e rest hq hne hns hd => exact ⟨hws, hlog⟩
  | child e i v hw => exact ⟨hws, hlog⟩
  | claim e rest i hq hne hns hd hw =>
    refine ⟨?_, hlog⟩
    intro st hst
    rcases List.mem_or_eq_of_mem_set hst with hmem | hrf
    · exact hws st hmem
    · rw [hrf]
      exact hd
  | abort e i hw =>
    refine ⟨?_, hlog⟩
    intro st hst
    rcases List.mem_or_eq_of_mem_set hst with hmem | hrf
    · exact hws st hmem
    · rw [hrf]
      trivial
  | fetch e i hw =>
    have hdep : e.depth ≤ maxDepth := hws _ (List.get?_mem hw)
    constructor
    · intro st hst
      rcases List.mem_or_eq_of_mem_set hst with hmem | hrf
      · exact hws st hmem
      · rw [hrf]
        exact hdep
    · intro e' he'
      rcases List.mem_append.mp he' with hmem | hone
      · exact hlog e' hmem
      · rw [List.mem_singleton.mp hone]
        exact hdep
  | finish e i hw =>
    refine ⟨?_, hlog⟩
    intro st hst
    rcases List.mem_or_eq_of_mem_set hst with hmem | hrf
    · exact hws st hmem
    · rw [hrf]
      trivial

/-- Every reachable state satisfies the depth invariant. -/
theorem depthInv_reachable {maxDepth w : Nat} {s : CrawlState} (h : Reachable maxDepth w s) :
    DepthInv maxDepth s := by
  unfold Reachable at h
  induction h with
  | refl => exact depthInv_init maxDepth w
  | tail _hsteps hstep ih => exact depthInv_step hstep ih

/-- Claim C8: no URL whose frontier depth exceeds the configured maximum is
ever fetched — entries above the bound are filtered at dequeue before the
fetch step (after the seen-set claim), and children enter the frontier at
the parent's depth plus one. -/
theorem depth_bound_on_fetches (maxDepth w : Nat) (s : CrawlState)
    (h : Reachable maxDepth w s) (e : QEntry) (he : e ∈ s.fetchLog) :
    e.depth ≤ maxDepth :=
  (depthInv_reachable h).2 e he

/-- The five-step demonstration run: seed, claim, fetch, one child enqueued,
iteration finished. -/
theorem demo_reachable : Reachable 3 1 demoFinal := by
  have t1 : CrawlStep 3 (initState 1) demoA := CrawlStep.seed _ "http://a.test/"
  have t2 : CrawlStep 3 demoA demoB :=
    CrawlStep.claim _ { url := "http://a.test/", depth := 0 } [] 0 rfl (by decide) (by decide)
      (by decide) rfl
  have t3 : CrawlStep 3 demoB demoC :=
    CrawlStep.fetch _ { url := "http://a.test/", depth := 0 } 0 rfl
  have t4 : CrawlStep 3 demoC demoD :=
    CrawlStep.child _ { url := "http://a.test/", depth := 0 } 0 "http://a.test/b" rfl
  have t5 : CrawlStep 3 demoD demoFinal :=
    CrawlStep.finish _ { url := "http://a.test/", depth := 0 } 0 rfl
  exact Relation.ReflTransGen.tail
    (Relation.ReflTransGen.tail
      (Relation.ReflTransGen.tail
        (Relation.ReflTransGen.tail (Relation.ReflTransGen.single t1) t2) t3) t4) t5

/-- Witness for claim C7's theorem on the demonstration run. -/
theorem url_fetched_at_most_once_witness :
    ((demoFinal.fetchLog.map QEntry.url).count "http://a.test/") ≤ 1 :=
  url_fetched_at_most_once 3 1 demoFinal demo_reachable "http://a.test/"

/-- Witness for claim C8's theorem on the demonstration run. -/
theorem depth_bound_on_fetches_witness :
    ({ url := "http://a.test/", depth := 0 } : QEntry).depth ≤ 3 :=
  depth_bound_on_fetches 3 1 demoFinal demo_reachable
    { url := "http://a.test/", depth := 0 } (by decide)

end DreamCrawler
